import Mathlib

/-!
Shallow embedding of the prompt/response pipeline of `src/gemini-1/chat.py`
(Flask front-end over a generative-model SDK), together with proofs about the
claims of the specification.

Strings are modelled as `List Char` where character-level scanning matters and
as `String` elsewhere.  Python regular-expression substitutions are embedded as
bespoke left-to-right scanners that reproduce `re.sub`'s leftmost,
non-overlapping, greedy-with-backtracking semantics for the specific patterns
appearing in the source.  Whitespace (`\s`), `[A-Z]` and `\d` are modelled over
the ASCII fragment, which is faithful for ASCII inputs.
-/

namespace Chat

/-- Python `\s` (ASCII fragment): space, tab, newline, carriage return,
vertical tab, form feed.  Also the character set stripped by `str.strip()`. -/
def isPySpace (c : Char) : Bool :=
  c = ' ' || c = '\t' || c = '\n' || c = '\r' || c = '\x0b' || c = '\x0c'

/-- Regex class `[A-Z]`. -/
def isUpperAZ (c : Char) : Bool := 'A' ≤ c && c ≤ 'Z'

/-- Regex class `\d` (ASCII fragment). -/
def isDigit09 (c : Char) : Bool := '0' ≤ c && c ≤ '9'

/-- Python `str.strip()`: drop leading and trailing whitespace. -/
def pyStrip (s : List Char) : List Char :=
  ((s.dropWhile isPySpace).reverse.dropWhile isPySpace).reverse

/-- The characters of the regex class `[_~\x60]` (underscore, tilde, backquote). -/
def isMark (c : Char) : Bool := c = '_' || c = '~' || c = '\x60'

/-- `re.sub(r'\*+', '', text)`: deleting every maximal run of `*` deletes
exactly the `*` characters. -/
def stripStars (s : List Char) : List Char := s.filter (fun c => !(c = '*'))

/-- `re.sub(r'[_~\x60]+', '', text)`: deletes exactly the `_`, `~`, backquote
characters. -/
def stripMarks (s : List Char) : List Char := s.filter (fun c => !isMark c)

/-- Scanner for `re.sub(r'X+', ' ', text)` where `X` is the class decided by
`p`: each maximal run of `p`-characters is replaced by a single space.  The
flag records whether the scanner is inside such a run. -/
def collapseRunsAux (p : Char → Bool) : Bool → List Char → List Char
  | _, [] => []
  | inRun, c :: cs =>
    if p c then
      if inRun then collapseRunsAux p true cs
      else ' ' :: collapseRunsAux p true cs
    else c :: collapseRunsAux p false cs

def collapseRuns (p : Char → Bool) (s : List Char) : List Char :=
  collapseRunsAux p false s

/-- `re.sub(r'\s+', ' ', text)`. -/
def collapseWS (s : List Char) : List Char := collapseRuns isPySpace s

/-- Regex class `[ \t]`. -/
def isSpaceTab (c : Char) : Bool := c = ' ' || c = '\t'

/-- `re.sub(r'[ \t]+', ' ', text)`. -/
def collapseSpaces (s : List Char) : List Char := collapseRuns isSpaceTab s

/-- Regex class `[A-Z\s:]` (used by the heading rule `ruleA`). -/
def isClassA (c : Char) : Bool := isUpperAZ c || isPySpace c || c = ':'

/-- Regex class `[A-Z\s]` (used by the heading rule `ruleB`). -/
def isClassB (c : Char) : Bool := isUpperAZ c || isPySpace c

/-- Regex class `[.!?]` (used by `ruleE`). -/
def isPunct (c : Char) : Bool := c = '.' || c = '!' || c = '?'

/-- Largest index `j` such that `l[j] = ':'` and `l[j+1] = '\n'`; this is the
backtracking target of the greedy `[A-Z\s:]+` of `ruleA` (the class contains
both `:` and `\n`, so the match point is the last `":\n"` inside the run). -/
def lastColonNl : List Char → Option Nat
  | [] => none
  | [_] => none
  | a :: b :: t =>
    match lastColonNl (b :: t) with
    | some j => some (j + 1)
    | none => if a = ':' && b = '\n' then some 0 else none

/-- Scanner for `re.sub(r'\n([A-Z][A-Z\s:]+:)\n', r'\n\n\1\n', text)`.
A match needs `\n`, an `[A-Z]` character, then `j ≥ 1` characters of
`[A-Z\s:]`, then `:` then `\n`; since `:` and `\n` both belong to the class,
greediness selects the largest such `j` inside the maximal class run.
Fuel is one unit per scanned position; the wrapper passes `s.length`. -/
def ruleAGo : Nat → List Char → List Char
  | 0, s => s
  | _ + 1, [] => []
  | fuel + 1, c :: cs =>
    if c = '\n' then
      match cs with
      | [] => ['\n']
      | a :: cs2 =>
        if isUpperAZ a then
          let run := cs2.takeWhile isClassA
          match lastColonNl run with
          | some j =>
            if 1 ≤ j then
              '\n' :: '\n' :: a ::
                (run.take j ++ ':' :: '\n' :: ruleAGo fuel (cs2.drop (j + 2)))
            else '\n' :: ruleAGo fuel cs
          | none => '\n' :: ruleAGo fuel cs
        else '\n' :: ruleAGo fuel cs
    else c :: ruleAGo fuel cs

def ruleA (s : List Char) : List Char := ruleAGo s.length s

/-- Scanner for `re.sub(r'([A-Z][A-Z\s]+:)([^\n])', r'\1\n\2', text)`.
Since `:` is not in `[A-Z\s]`, the greedy `[A-Z\s]+` must consume the whole
maximal class run (which must be non-empty), followed by `:` and one
non-newline character. -/
def ruleBGo : Nat → List Char → List Char
  | 0, s => s
  | _ + 1, [] => []
  | fuel + 1, c :: cs =>
    if isUpperAZ c then
      let run := cs.takeWhile isClassB
      if run.isEmpty then c :: ruleBGo fuel cs
      else
        match cs.dropWhile isClassB with
        | ':' :: x :: t =>
          if x = '\n' then c :: ruleBGo fuel cs
          else c :: (run ++ ':' :: '\n' :: x :: ruleBGo fuel t)
        | _ => c :: ruleBGo fuel cs
    else c :: ruleBGo fuel cs

def ruleB (s : List Char) : List Char := ruleBGo s.length s

/-- Scanner for `re.sub(r'\n(\d+\.)', r'\n\n\1', text)`: `.` is not a digit,
so the greedy `\d+` consumes the whole (non-empty) digit run. -/
def ruleCGo : Nat → List Char → List Char
  | 0, s => s
  | _ + 1, [] => []
  | fuel + 1, c :: cs =>
    if c = '\n' then
      let ds := cs.takeWhile isDigit09
      if ds.isEmpty then '\n' :: ruleCGo fuel cs
      else
        match cs.dropWhile isDigit09 with
        | '.' :: t => '\n' :: '\n' :: (ds ++ '.' :: ruleCGo fuel t)
        | _ => '\n' :: ruleCGo fuel cs
    else c :: ruleCGo fuel cs

def ruleC (s : List Char) : List Char := ruleCGo s.length s

/-- Scanner for `re.sub(r'\n(-\s)', r'\n\n\1', text)`. -/
def ruleDGo : Nat → List Char → List Char
  | 0, s => s
  | _ + 1, [] => []
  | fuel + 1, c :: cs =>
    if c = '\n' then
      match cs with
      | '-' :: w :: t =>
        if isPySpace w then '\n' :: '\n' :: '-' :: w :: ruleDGo fuel t
        else '\n' :: ruleDGo fuel cs
      | _ => '\n' :: ruleDGo fuel cs
    else c :: ruleDGo fuel cs

def ruleD (s : List Char) : List Char := ruleDGo s.length s

/-- Scanner for `re.sub(r'([.!?])\s*\n([A-Z])', r'\1\n\n\2', text)`.
`\n` belongs to `\s`, and the character after the `\n` must not be whitespace,
so a match forces the greedy `\s*` plus the literal `\n` to consume exactly the
maximal whitespace run, whose last character must be `\n`, followed by an
`[A-Z]` character.  The replacement drops the whitespace run. -/
def ruleEGo : Nat → List Char → List Char
  | 0, s => s
  | _ + 1, [] => []
  | fuel + 1, c :: cs =>
    if isPunct c then
      let run := cs.takeWhile isPySpace
      if run.getLast? = some '\n' then
        match cs.dropWhile isPySpace with
        | u :: t =>
          if isUpperAZ u then c :: '\n' :: '\n' :: u :: ruleEGo fuel t
          else c :: ruleEGo fuel cs
        | [] => c :: ruleEGo fuel cs
      else c :: ruleEGo fuel cs
    else c :: ruleEGo fuel cs

def ruleE (s : List Char) : List Char := ruleEGo s.length s

/-- Scanner for `re.sub(r'\n{4,}', '\n\n\n', text)`: each maximal run of four
or more newlines is replaced by three newlines. -/
def ruleNGo : Nat → List Char → List Char
  | 0, s => s
  | _ + 1, [] => []
  | fuel + 1, c :: cs =>
    if c = '\n' then
      let run := cs.takeWhile (fun d => d = '\n')
      if 3 ≤ run.length then
        '\n' :: '\n' :: '\n' :: ruleNGo fuel (cs.dropWhile (fun d => d = '\n'))
      else '\n' :: ruleNGo fuel cs
    else c :: ruleNGo fuel cs

def ruleN (s : List Char) : List Char := ruleNGo s.length s

/-- The fallback answer of `format_response` for empty or absent input. -/
def FALLBACK_ANSWER : String := "I'm not sure how to answer that."

/-- The character-level body of `format_response` for truthy input: the
substitution chain of lines 60–76 of `chat.py`, in source order. -/
def format_response_chars (s : List Char) : List Char :=
  pyStrip (collapseSpaces (ruleN (ruleE (ruleD (ruleC (ruleB (ruleA
    (collapseWS (stripMarks (stripStars (pyStrip s)))))))))))

/-- `format_response(text)`: `None` and `""` are the falsy inputs caught by
`if not text`. -/
def format_response (text : Option String) : String :=
  match text with
  | none => FALLBACK_ANSWER
  | some s => if s = "" then FALLBACK_ANSWER else ⟨format_response_chars s.data⟩

/-- One entry of the client-supplied conversation history: a JSON object read
with `msg.get('role')` and `msg.get('content', '')`, so both keys may be
absent. -/
structure ConversationTurn where
  role : Option String
  content : Option String
deriving DecidableEq

/-- One loop iteration of `build_conversation_context`:
`f"{role}: {msg.get('content', '')}\n"` where
`role = "User" if msg.get('role') == 'user' else "Assistant"`. -/
def renderTurn (m : ConversationTurn) : String :=
  (if m.role = some "user" then "User" else "Assistant") ++ ": " ++
    m.content.getD "" ++ "\n"

/-- Python `conversation_history[-10:]`. -/
def lastTen (h : List ConversationTurn) : List ConversationTurn :=
  h.drop (h.length - 10)

/-- The accumulated loop body of `build_conversation_context` (string
concatenation left to right). -/
def renderTurns : List ConversationTurn → String
  | [] => ""
  | m :: t => renderTurn m ++ renderTurns t

/-- `build_conversation_context(conversation_history)` (lines 78–87):
empty history is falsy and yields `""`; otherwise the header, the rendered
last ten turns, and a final extra newline. -/
def build_conversation_context (h : List ConversationTurn) : String :=
  if h = [] then ""
  else "\n\nCONVERSATION CONTEXT:\n" ++ renderTurns (lastTen h) ++ "\n"

/-- Join a list of strings with single newlines (no trailing newline). -/
def joinNl : List String → String
  | [] => ""
  | [x] => x
  | x :: y :: t => x ++ "\n" ++ joinNl (y :: t)

/-- Modelled from the spec's words for claim C3 (refinement comparison only,
not from the source): render each turn as `"<Role>: <content>"` with no
trailing newline. -/
def renderTurnClaim (m : ConversationTurn) : String :=
  (if m.role = some "user" then "User" else "Assistant") ++ ": " ++
    m.content.getD ""

/-- Modelled from the spec's words for claim C3 (refinement comparison only,
not from the source): header, the last ten turns joined with newlines, and a
single trailing newline. -/
def build_conversation_context_claim (h : List ConversationTurn) : String :=
  if h = [] then ""
  else "\n\nCONVERSATION CONTEXT:\n" ++
    joinNl ((lastTen h).map renderTurnClaim) ++ "\n"

/-- The fixed system instruction (lines 90–96; Python adjacent string
literals concatenate). -/
def SYSTEM_INSTRUCTION : String :=
  "You are a helpful, knowledgeable, and professional AI assistant. " ++
  "Provide clear, accurate, and well-structured responses. " ++
  "Use proper formatting with headings, lists, and examples when helpful. " ++
  "Never use asterisks (*) for formatting. Use dashes (-) for bullet points. " ++
  "Be comprehensive but concise, and always aim for clarity and helpfulness."

/-- Observable side effects of a request handler, in order of occurrence:
a file written to disk, or an invocation of the external model (recorded with
the text part of its prompt payload). -/
inductive Effect where
  | saveFile (path : String)
  | modelCall (prompt : String)
deriving DecidableEq

/-- Outcome of reading the saved upload back from disk:
contents, a `UnicodeDecodeError`, or any other exception (with its text). -/
inductive ReadOutcome where
  | ok (content : String)
  | unicodeError (msg : String)
  | otherError (msg : String)
deriving DecidableEq

/-- The request-independent environment of a handler call: the random token
from `secrets.token_hex(8)`, whether `file.save` succeeds, whether the global
`model` is initialized, the model call's outcome (`.error e` for a raised
exception, otherwise `response.text` with `none` for an absent text), and the
file-read outcome. -/
structure Env where
  token : String
  saveOk : Bool
  modelAvailable : Bool
  modelResult : Except String (Option String)
  readOutcome : ReadOutcome

/-- The fixed 5-point image-analysis instruction of `process_image_file`. -/
def IMAGE_INSTRUCTION : String :=
  "Please analyze this image and provide:\n\n" ++
  "1. A brief overview of what you see\n" ++
  "2. Key details about the main subjects or objects\n" ++
  "3. Information about colors, composition, and setting\n" ++
  "4. Any text or important details you notice\n" ++
  "5. Notable features, patterns, or technical aspects\n\n" ++
  "Please organize your response clearly."

/-- `process_image_file` (lines 193–221).  Any exception inside the `try`
(file read or model call) maps to the apology with the exception text; an
uninitialized model yields a fixed message without a call; a falsy
`response.text` yields a fixed message. -/
def process_image_file (env : Env) (mime_type message context : String) :
    List Effect × String :=
  match env.readOutcome with
  | .unicodeError e => ([], "Sorry, I couldn't process this image. Error: " ++ e)
  | .otherError e => ([], "Sorry, I couldn't process this image. Error: " ++ e)
  | .ok _ =>
    let prompt_text := SYSTEM_INSTRUCTION ++ context ++ "\n\n" ++
      (if message ≠ "" then message else IMAGE_INSTRUCTION)
    if env.modelAvailable then
      match env.modelResult with
      | .error e =>
        ([Effect.modelCall prompt_text],
         "Sorry, I couldn't process this image. Error: " ++ e)
      | .ok t =>
        ([Effect.modelCall prompt_text],
          match t with
          | some s =>
            if s = "" then "I couldn't analyze this image."
            else format_response (some s)
          | none => "I couldn't analyze this image.")
    else ([], "AI model is not available.")

/-- The fixed 5-point file-analysis instruction of `process_text_file`. -/
def FILE_INSTRUCTION : String :=
  "Please help me understand this file by providing:\n\n" ++
  "1. What type of file this is and its main purpose\n" ++
  "2. Key components, functions, or sections\n" ++
  "3. How it's structured and organized\n" ++
  "4. Any notable features or important aspects\n" ++
  "5. If it's code, any observations about quality or improvements\n\n" ++
  "Please explain everything clearly."

/-- `process_text_file` (lines 223–251).  A `UnicodeDecodeError` yields the
fixed unsupported-format apology; any other exception yields the apology with
the exception text. -/
def process_text_file (env : Env) (filename message context : String) :
    List Effect × String :=
  match env.readOutcome with
  | .unicodeError _ =>
    ([], "Sorry, I couldn't read this file. It might be in a format I don't support.")
  | .otherError e => ([], "Sorry, I couldn't process this file. Error: " ++ e)
  | .ok file_content =>
    let prompt_text := SYSTEM_INSTRUCTION ++ context ++ "\n\n" ++
      ("I've uploaded a file called '" ++ filename ++ "'. Could you analyze it?\n\n" ++
       "Here's the content:\n\n```\n" ++ file_content ++ "\n```\n\n" ++
       (if message ≠ "" then message else FILE_INSTRUCTION))
    if env.modelAvailable then
      match env.modelResult with
      | .error e =>
        ([Effect.modelCall prompt_text],
         "Sorry, I couldn't process this file. Error: " ++ e)
      | .ok t =>
        ([Effect.modelCall prompt_text],
          match t with
          | some s =>
            if s = "" then "I couldn't analyze this file."
            else format_response (some s)
          | none => "I couldn't analyze this file.")
    else ([], "AI model is not available.")

/-- Python `str.startswith`, over the character lists. -/
def startsWithL (s p : String) : Bool := List.isPrefixOf p.data s.data

/-- Python `str.endswith`, over the character lists. -/
def endsWithL (s p : String) : Bool := List.isPrefixOf p.data.reverse s.data.reverse

/-- The extensions accepted by the filename fallback of the dispatch
(line 181). -/
def TEXT_EXTENSIONS : List String :=
  [".txt", ".py", ".js", ".html", ".css", ".json", ".xml", ".csv"]

inductive FileKind where
  | image
  | textFile
  | unsupported
deriving DecidableEq

/-- The file-type dispatch of `handle_file_upload` (lines 179–184):
`file.mimetype.startswith('image/')`, else `file.mimetype.startswith('text/')
or file.filename.endswith((...))`, else unsupported. -/
def dispatchKind (mimetype filename : String) : FileKind :=
  if startsWithL mimetype "image/" then .image
  else if startsWithL mimetype "text/"
      || TEXT_EXTENSIONS.any (fun e => endsWithL filename e) then .textFile
  else .unsupported

/-- The multipart request as seen by `handle_file_upload`: the file's
filename and declared mime type, the `message` form field, and the result of
`json.loads` on the `conversation_history` form field (`.error e` when the
JSON is malformed and `json.loads` raises). -/
structure UploadRequest where
  filename : String
  mimetype : String
  message : String
  historyParse : Except String (List ConversationTurn)

/-- The JSON response of `handle_file_upload`: an error status with message,
or the HTTP-200 body `{response, file_url, file_name, file_type}`. -/
inductive UploadResponse where
  | err (status : Nat) (error : String)
  | ok (response file_url file_name file_type : String)
deriving DecidableEq

/-- Lines 157–161: `json.loads` in a `try` whose `except` falls back to the
empty history. -/
def historyOf (req : UploadRequest) : List ConversationTurn :=
  match req.historyParse with
  | .ok h => h
  | .error _ => []

/-- `handle_file_upload` (lines 151–191), returning the effect trace in order
of occurrence together with the response. -/
def handle_file_upload (env : Env) (req : UploadRequest) :
    List Effect × UploadResponse :=
  let conversation_history := historyOf req
  if req.filename = "" then ([], .err 400 "No file selected")
  else
    let filename := env.token ++ "_" ++ req.filename
    let file_path := "static/uploads/" ++ filename
    if env.saveOk then
      let context := build_conversation_context conversation_history
      let (effs, answer) :=
        match dispatchKind req.mimetype req.filename with
        | .image => process_image_file env req.mimetype req.message context
        | .textFile => process_text_file env req.filename req.message context
        | .unsupported =>
          ([], "Sorry, I don't support files of type '" ++ req.mimetype ++
               "'. I can analyze images and text files.")
      (Effect.saveFile file_path :: effs,
        .ok answer ("/static/uploads/" ++ filename) req.filename req.mimetype)
    else ([], .err 500 "Failed to save file")

/-- The JSON body of a `POST /chat` request: `data.get('message')` and
`data.get('conversation_history', [])`.  A request whose body is not a JSON
object is `none` (and an empty JSON object is falsy like `none`, with both
fields absent). -/
structure ChatData where
  message : Option String
  conversation_history : List ConversationTurn

/-- The JSON response of the `chat` endpoint's text branch. -/
inductive ChatResponse where
  | err (status : Nat) (error : String)
  | ok (response : String)
deriving DecidableEq

/-- The JSON (non-file) branch of the `chat` endpoint (lines 127–149):
falsy `data` or falsy `data.get('message')` is rejected with 400; a model
exception is caught by the handler's `try` and produces a 500. -/
def chat_json (env : Env) (data : Option ChatData) :
    List Effect × ChatResponse :=
  match data with
  | none => ([], .err 400 "No message provided")
  | some d =>
    if d.message.getD "" = "" then ([], .err 400 "No message provided")
    else
      let message := d.message.getD ""
      let context := build_conversation_context d.conversation_history
      let prompt_text := SYSTEM_INSTRUCTION ++ context ++ message ++ "\n\nAssistant:"
      if env.modelAvailable then
        match env.modelResult with
        | .error e =>
          ([Effect.modelCall prompt_text], .err 500 ("An error occurred: " ++ e))
        | .ok t =>
          ([Effect.modelCall prompt_text],
            .ok (match t with
                 | some s =>
                   if s = "" then "I'm not sure how to respond to that."
                   else format_response (some s)
                 | none => "I'm not sure how to respond to that."))
      else ([], .ok "AI model is not available.")

/-- No newline character occurs in the list. -/
abbrev noNewline (s : List Char) : Prop := '\n' ∉ s

/-- Marker-free text: no `*` and no `_`, `~`, backquote characters. -/
abbrev noMarkers (s : List Char) : Prop := ∀ c ∈ s, ¬c = '*' ∧ isMark c = false

/-- No two adjacent space characters. -/
def noDoubleSpace : List Char → Bool
  | [] => true
  | [_] => true
  | a :: b :: t => !(a = ' ' && b = ' ') && noDoubleSpace (b :: t)

/-- Whitespace-normalized text: every whitespace character is a plain space,
no two spaces are adjacent, and the text neither starts nor ends with a
space. -/
abbrev wsClean (s : List Char) : Prop :=
  (∀ c ∈ s, isPySpace c = true → c = ' ') ∧ noDoubleSpace s = true ∧
    s.head? ≠ some ' ' ∧ s.getLast? ≠ some ' '

/-- `ruleB` matches at a position beginning with `c` and continuing with
`cs`: an `[A-Z]` character, a non-empty `[A-Z\s]` run, a colon, and a
following non-newline character. -/
def ruleBTriggerAt (c : Char) (cs : List Char) : Bool :=
  isUpperAZ c && !(cs.takeWhile isClassB).isEmpty &&
    (match cs.dropWhile isClassB with
     | ':' :: x :: _ => !(x = '\n')
     | _ => false)

/-- `ruleB` matches somewhere in the text. -/
def hasRuleBTrigger : List Char → Bool
  | [] => false
  | c :: cs => ruleBTriggerAt c cs || hasRuleBTrigger cs

/-- A substring matching `[A-Z][A-Z\s]+` followed by `:` starts at a position
beginning with `c` and continuing with `cs` (since `:` is outside the class,
the regex search condition is equivalent to this maximal-run form). -/
def headingAt (c : Char) (cs : List Char) : Bool :=
  isUpperAZ c && !(cs.takeWhile isClassB).isEmpty &&
    (match cs.dropWhile isClassB with
     | ':' :: _ => true
     | _ => false)

/-- Some substring of the text matches `[A-Z][A-Z\s]+` followed by `:`. -/
def hasHeadingSub : List Char → Bool
  | [] => false
  | c :: cs => headingAt c cs || hasHeadingSub cs

/-- The intermediate text after steps 2–5 of the formatter (trim, marker
removal, whitespace collapse): the input to the structure rules. -/
def preStructured (s : List Char) : List Char :=
  collapseWS (stripMarks (stripStars (pyStrip s)))

/-- Sample turn for concrete witnesses. -/
def sampleTurn : ConversationTurn := ⟨some "user", some "hi"⟩

/-- Sample environment for concrete witnesses: saving succeeds, the model is
available and answers `"Hi there!"`, the file reads back. -/
def sampleEnv : Env :=
  ⟨"t0", true, true, Except.ok (some "Hi there!"), ReadOutcome.ok "file body"⟩

/-- A `.csv` upload declared as `application/octet-stream`. -/
def csvReq : UploadRequest := ⟨"data.csv", "application/octet-stream", "", Except.ok []⟩

/-- A `.pdf` upload declared as `application/pdf`. -/
def pdfReq : UploadRequest := ⟨"doc.pdf", "application/pdf", "", Except.ok []⟩

/-- An upload whose `conversation_history` form field is malformed JSON. -/
def badJsonReq : UploadRequest :=
  ⟨"notes.txt", "text/plain", "hello", Except.error "Expecting value: line 1 column 1 (char 0)"⟩

end Chat

namespace Chat

/-! Helper lemmas about `handle_file_upload` in the saved case, one per
dispatch branch. -/

theorem upload_saved_image (env : Env) (req : UploadRequest)
    (hf : ¬req.filename = "") (hs : env.saveOk = true)
    (hk : dispatchKind req.mimetype req.filename = .image) :
    handle_file_upload env req =
      (Effect.saveFile ("static/uploads/" ++ (env.token ++ "_" ++ req.filename)) ::
        (process_image_file env req.mimetype req.message
          (build_conversation_context (historyOf req))).1,
       UploadResponse.ok
         (process_image_file env req.mimetype req.message
           (build_conversation_context (historyOf req))).2
         ("/static/uploads/" ++ (env.token ++ "_" ++ req.filename))
         req.filename req.mimetype) := by
  simp only [handle_file_upload, hf, hs, hk, if_false, if_true, ite_false, ite_true]

theorem upload_saved_text (env : Env) (req : UploadRequest)
    (hf : ¬req.filename = "") (hs : env.saveOk = true)
    (hk : dispatchKind req.mimetype req.filename = .textFile) :
    handle_file_upload env req =
      (Effect.saveFile ("static/uploads/" ++ (env.token ++ "_" ++ req.filename)) ::
        (process_text_file env req.filename req.message
          (build_conversation_context (historyOf req))).1,
       UploadResponse.ok
         (process_text_file env req.filename req.message
           (build_conversation_context (historyOf req))).2
         ("/static/uploads/" ++ (env.token ++ "_" ++ req.filename))
         req.filename req.mimetype) := by
  simp only [handle_file_upload, hf, hs, hk, if_false, if_true, ite_false, ite_true]

theorem upload_saved_unsupported (env : Env) (req : UploadRequest)
    (hf : ¬req.filename = "") (hs : env.saveOk = true)
    (hk : dispatchKind req.mimetype req.filename = .unsupported) :
    handle_file_upload env req =
      ([Effect.saveFile ("static/uploads/" ++ (env.token ++ "_" ++ req.filename))],
       UploadResponse.ok
         ("Sorry, I don't support files of type '" ++ req.mimetype ++
          "'. I can analyze images and text files.")
         ("/static/uploads/" ++ (env.token ++ "_" ++ req.filename))
         req.filename req.mimetype) := by
  simp only [handle_file_upload, hf, hs, hk, if_false, if_true, ite_false, ite_true]

theorem dispatchKind_image (mt fn : String) (h : startsWithL mt "image/" = true) :
    dispatchKind mt fn = .image := by
  simp only [dispatchKind, h, if_true, ite_true]

theorem dispatchKind_text (mt fn : String) (h1 : startsWithL mt "image/" = false)
    (h2 : (startsWithL mt "text/" || TEXT_EXTENSIONS.any (fun e => endsWithL fn e)) = true) :
    dispatchKind mt fn = .textFile := by
  simp only [dispatchKind, h1, h2, if_true, if_false, ite_true, ite_false,
    Bool.false_eq_true, Bool.true_eq_false]

theorem dispatchKind_unsupported (mt fn : String) (h1 : startsWithL mt "image/" = false)
    (h2 : (startsWithL mt "text/" || TEXT_EXTENSIONS.any (fun e => endsWithL fn e)) = false) :
    dispatchKind mt fn = .unsupported := by
  simp only [dispatchKind, h1, h2, if_true, if_false, ite_true, ite_false,
    Bool.false_eq_true, Bool.true_eq_false]

/-- Each rendered turn carries its own trailing newline, so the accumulated
loop body equals the newline-join of the claim-side renderings plus one
newline. -/
theorem renderTurns_eq_joinNl (l : List ConversationTurn) (hne : l ≠ []) :
    renderTurns l = joinNl (l.map renderTurnClaim) ++ "\n" := by
  induction l with
  | nil => exact absurd rfl hne
  | cons m t ih =>
    cases t with
    | nil =>
      show renderTurn m ++ "" = renderTurnClaim m ++ "\n"
      rw [String.append_empty]
      rfl
    | cons y t' =>
      show renderTurn m ++ renderTurns (y :: t') =
        joinNl (renderTurnClaim m :: renderTurnClaim y :: (t').map renderTurnClaim) ++ "\n"
      rw [ih (by simp)]
      show (renderTurnClaim m ++ "\n") ++ (joinNl ((y :: t').map renderTurnClaim) ++ "\n") = _
      rw [joinNl]
      simp only [List.map_cons, String.append_assoc]

/-- `ruleN` does not touch newline-free text. -/
theorem ruleNGo_id_of_noNewline (fuel : Nat) (s : List Char) (h : '\n' ∉ s) :
    ruleNGo fuel s = s := by
  induction fuel generalizing s with
  | zero => rfl
  | succ f ih =>
    cases s with
    | nil => rfl
    | cons c cs =>
      have hc : ¬c = '\n' := fun hh => h (hh ▸ List.mem_cons_self c cs)
      show (if c = '\n' then _ else c :: ruleNGo f cs) = c :: cs
      rw [if_neg hc, ih cs (fun hm => h (List.mem_cons_of_mem c hm))]

/-- Splitting a newline run followed by newline-free text. -/
theorem replicate_newline_split (k : Nat) (b : List Char) (hb : '\n' ∉ b) :
    (List.replicate k '\n' ++ b).takeWhile (fun d => d = '\n') = List.replicate k '\n' ∧
    (List.replicate k '\n' ++ b).dropWhile (fun d => d = '\n') = b := by
  induction k with
  | zero =>
    simp only [List.replicate, List.nil_append]
    cases b with
    | nil => exact ⟨rfl, rfl⟩
    | cons c t =>
      have hc : ¬c = '\n' := fun hh => hb (hh ▸ List.mem_cons_self c t)
      constructor
      · rw [List.takeWhile_cons]
        simp [hc]
      · rw [List.dropWhile_cons]
        simp [hc]
  | succ n ih =>
    rw [List.replicate_succ]
    constructor
    · rw [List.cons_append, List.takeWhile_cons]
      simp only [decide_True, if_true, ite_true, decide_eq_true_eq]
      rw [(ih).1]
    · rw [List.cons_append, List.dropWhile_cons]
      simp only [decide_True, if_true, ite_true, decide_eq_true_eq]
      rw [(ih).2]

/-- Core of the corrected C2: a maximal run of `k ≥ 4` newlines surrounded by
newline-free text is collapsed to exactly three newlines. -/
theorem ruleNGo_collapse (k : Nat) (hk : 4 ≤ k) (b : List Char) (hb : '\n' ∉ b) :
    ∀ (a : List Char) (fuel : Nat),
      (a ++ (List.replicate k '\n' ++ b)).length ≤ fuel → '\n' ∉ a →
      ruleNGo fuel (a ++ (List.replicate k '\n' ++ b)) =
        a ++ (List.replicate 3 '\n' ++ b) := by
  intro a
  induction a with
  | nil =>
    intro fuel hfuel _
    obtain ⟨k', rfl⟩ : ∃ k', k = k' + 1 := ⟨k - 1, by omega⟩
    cases fuel with
    | zero => simp [List.length_append, List.length_replicate] at hfuel
    | succ f =>
      rw [List.nil_append, List.replicate_succ, List.cons_append]
      show (if '\n' = '\n' then _ else _) = _
      rw [if_pos rfl]
      have hsplit := replicate_newline_split k' b hb
      simp only [hsplit.1, hsplit.2, List.length_replicate]
      rw [if_pos (by omega : 3 ≤ k')]
      rw [ruleNGo_id_of_noNewline f b hb]
      rfl
  | cons c a' ih =>
    intro fuel hfuel ha
    have hc : ¬c = '\n' := fun hh => ha (hh ▸ List.mem_cons_self c a')
    cases fuel with
    | zero => simp [List.length_append] at hfuel
    | succ f =>
      rw [List.cons_append]
      show (if c = '\n' then _ else c :: ruleNGo f (a' ++ (List.replicate k '\n' ++ b))) = _
      rw [if_neg hc]
      rw [ih f (by simpa using Nat.le_of_succ_le_succ (by simpa [List.length_cons] using hfuel))
        (fun hm => ha (List.mem_cons_of_mem c hm))]
      rfl

/-! Survival lemmas: characters that are not whitespace (and not markers, for
the two filters) are never deleted by any step of the formatter. -/

theorem mem_dropWhile_of_mem {p : Char → Bool} {c : Char} :
    ∀ {l : List Char}, c ∈ l → p c = false → c ∈ l.dropWhile p := by
  intro l
  induction l with
  | nil => intro h _; exact h
  | cons a t ih =>
    intro h hc
    rw [List.dropWhile_cons]
    by_cases ha : p a
    · rw [if_pos ha]
      rcases List.mem_cons.mp h with rfl | hm
      · rw [hc] at ha; exact absurd ha (by simp)
      · exact ih hm hc
    · rw [if_neg ha]
      exact h

theorem mem_pyStrip {c : Char} {s : List Char} (h : c ∈ s)
    (hc : isPySpace c = false) : c ∈ pyStrip s := by
  unfold pyStrip
  rw [List.mem_reverse]
  exact mem_dropWhile_of_mem (List.mem_reverse.mpr (mem_dropWhile_of_mem h hc)) hc

theorem mem_stripStars {c : Char} {s : List Char} (h : c ∈ s)
    (hc : ¬c = '*') : c ∈ stripStars s := by
  unfold stripStars
  rw [List.mem_filter]
  exact ⟨h, by simp [hc]⟩

theorem mem_stripMarks {c : Char} {s : List Char} (h : c ∈ s)
    (hc : isMark c = false) : c ∈ stripMarks s := by
  unfold stripMarks
  rw [List.mem_filter]
  exact ⟨h, by simp [hc]⟩

theorem mem_collapseRunsAux {p : Char → Bool} {c : Char} (hc : p c = false) :
    ∀ {l : List Char} (flag : Bool), c ∈ l → c ∈ collapseRunsAux p flag l := by
  intro l
  induction l with
  | nil => intro flag h; exact h
  | cons a t ih =>
    intro flag h
    unfold collapseRunsAux
    by_cases ha : p a
    · rw [if_pos ha]
      have hm : c ∈ t := by
        rcases List.mem_cons.mp h with rfl | hm
        · rw [hc] at ha; exact absurd ha (by simp)
        · exact hm
      cases flag with
      | true => exact ih true hm
      | false => exact List.mem_cons_of_mem ' ' (ih true hm)
    · rw [if_neg ha]
      rcases List.mem_cons.mp h with rfl | hm
      · exact List.mem_cons_self c _
      · exact List.mem_cons_of_mem a (ih false hm)

theorem mem_collapseRuns {p : Char → Bool} {c : Char} {s : List Char}
    (h : c ∈ s) (hc : p c = false) : c ∈ collapseRuns p s :=
  mem_collapseRunsAux hc false h

/-- Where `lastColonNl` points, the list splits as
`take j ++ ':' :: '\n' :: drop (j+2)`. -/
theorem lastColonNl_spec :
    ∀ (l : List Char) (j : Nat), lastColonNl l = some j →
      l = l.take j ++ ':' :: '\n' :: l.drop (j + 2) := by
  intro l
  induction l with
  | nil => intro j h; exact absurd h (by simp [lastColonNl])
  | cons a t ih =>
    intro j h
    cases t with
    | nil => exact absurd h (by simp [lastColonNl])
    | cons b t' =>
      rcases hr : lastColonNl (b :: t') with _ | j'
      · simp only [lastColonNl, hr] at h
        by_cases hab : (a = ':' && b = '\n') = true
        · rw [if_pos hab] at h
          injection h with hj
          subst hj
          simp only [Bool.and_eq_true, decide_eq_true_eq] at hab
          rw [hab.1, hab.2]
          rfl
        · rw [if_neg hab] at h
          exact absurd h (by simp)
      · simp only [lastColonNl, hr] at h
        injection h with hj
        subst hj
        show a :: b :: t' =
          a :: ((b :: t').take j' ++ ':' :: '\n' :: (b :: t').drop (j' + 2))
        exact congrArg (a :: ·) (ih j' hr)

/-- `lastColonNl` points inside the list. -/
theorem lastColonNl_le :
    ∀ (l : List Char) (j : Nat), lastColonNl l = some j → j + 2 ≤ l.length := by
  intro l
  induction l with
  | nil => intro j h; exact absurd h (by simp [lastColonNl])
  | cons a t ih =>
    intro j h
    cases t with
    | nil => exact absurd h (by simp [lastColonNl])
    | cons b t' =>
      rcases hr : lastColonNl (b :: t') with _ | j'
      · simp only [lastColonNl, hr] at h
        by_cases hab : (a = ':' && b = '\n') = true
        · rw [if_pos hab] at h
          injection h with hj
          subst hj
          simp [List.length_cons]
        · rw [if_neg hab] at h
          exact absurd h (by simp)
      · simp only [lastColonNl, hr] at h
        injection h with hj
        subst hj
        have := ih j' hr
        simp only [List.length_cons] at this ⊢
        omega

theorem mem_ruleNGo {c : Char} (hc : isPySpace c = false) :
    ∀ (fuel : Nat) (s : List Char), c ∈ s → c ∈ ruleNGo fuel s := by
  have hcn : ¬c = '\n' := by
    intro hh
    rw [hh] at hc
    exact absurd hc (by decide)
  intro fuel
  induction fuel with
  | zero => exact fun s h => h
  | succ f ih =>
    intro s h
    cases s with
    | nil => exact h
    | cons c0 cs =>
      simp only [ruleNGo]
      by_cases h0 : c0 = '\n'
      · rw [if_pos h0]
        have hm : c ∈ cs := by
          rcases List.mem_cons.mp h with rfl | hm
          · exact absurd h0 hcn
          · exact hm
        by_cases h3 : 3 ≤ (cs.takeWhile (fun d => d = '\n')).length
        · rw [if_pos h3]
          have hd : c ∈ cs.dropWhile (fun d => d = '\n') :=
            mem_dropWhile_of_mem hm (by simp [hcn])
          exact List.mem_cons_of_mem _ (List.mem_cons_of_mem _
            (List.mem_cons_of_mem _ (ih _ hd)))
        · rw [if_neg h3]
          exact List.mem_cons_of_mem _ (ih _ hm)
      · rw [if_neg h0]
        rcases List.mem_cons.mp h with rfl | hm
        · exact List.mem_cons_self _ _
        · exact List.mem_cons_of_mem _ (ih _ hm)

theorem mem_ruleDGo {c : Char} (hc : isPySpace c = false) :
    ∀ (fuel : Nat) (s : List Char), c ∈ s → c ∈ ruleDGo fuel s := by
  have hcn : ¬c = '\n' := by
    intro hh
    rw [hh] at hc
    exact absurd hc (by decide)
  intro fuel
  induction fuel with
  | zero => exact fun s h => h
  | succ f ih =>
    intro s h
    cases s with
    | nil => exact h
    | cons c0 cs =>
      simp only [ruleDGo]
      by_cases h0 : c0 = '\n'
      · rw [if_pos h0]
        have hm : c ∈ cs := by
          rcases List.mem_cons.mp h with rfl | hm
          · exact absurd h0 hcn
          · exact hm
        split
        next w t =>
          by_cases hw : isPySpace w
          · rw [if_pos hw]
            rcases List.mem_cons.mp hm with rfl | hm2
            · exact List.mem_cons_of_mem _ (List.mem_cons_of_mem _
                (List.mem_cons_self _ _))
            · rcases List.mem_cons.mp hm2 with rfl | hm3
              · exact List.mem_cons_of_mem _ (List.mem_cons_of_mem _
                  (List.mem_cons_of_mem _ (List.mem_cons_self _ _)))
              · exact List.mem_cons_of_mem _ (List.mem_cons_of_mem _
                  (List.mem_cons_of_mem _ (List.mem_cons_of_mem _ (ih _ hm3))))
          · rw [if_neg hw]
            exact List.mem_cons_of_mem _ (ih _ hm)
        next =>
          exact List.mem_cons_of_mem _ (ih _ hm)
      · rw [if_neg h0]
        rcases List.mem_cons.mp h with rfl | hm
        · exact List.mem_cons_self _ _
        · exact List.mem_cons_of_mem _ (ih _ hm)

theorem mem_ruleCGo {c : Char} (hc : isPySpace c = false) :
    ∀ (fuel : Nat) (s : List Char), c ∈ s → c ∈ ruleCGo fuel s := by
  have hcn : ¬c = '\n' := by
    intro hh
    rw [hh] at hc
    exact absurd hc (by decide)
  intro fuel
  induction fuel with
  | zero => exact fun s h => h
  | succ f ih =>
    intro s h
    cases s with
    | nil => exact h
    | cons c0 cs =>
      simp only [ruleCGo]
      by_cases h0 : c0 = '\n'
      · rw [if_pos h0]
        have hm : c ∈ cs := by
          rcases List.mem_cons.mp h with rfl | hm
          · exact absurd h0 hcn
          · exact hm
        by_cases hde : (cs.takeWhile isDigit09).isEmpty
        · rw [if_pos hde]
          exact List.mem_cons_of_mem _ (ih _ hm)
        · rw [if_neg hde]
          split
          next t heq =>
            have hsplit : cs.takeWhile isDigit09 ++ cs.dropWhile isDigit09 = cs :=
              List.takeWhile_append_dropWhile isDigit09 cs
            rw [← hsplit] at hm
            rcases List.mem_append.mp hm with hm1 | hm2
            · exact List.mem_cons_of_mem _ (List.mem_cons_of_mem _
                (List.mem_append.mpr (Or.inl hm1)))
            · rw [heq] at hm2
              rcases List.mem_cons.mp hm2 with rfl | hm3
              · exact List.mem_cons_of_mem _ (List.mem_cons_of_mem _
                  (List.mem_append.mpr (Or.inr (List.mem_cons_self _ _))))
              · exact List.mem_cons_of_mem _ (List.mem_cons_of_mem _
                  (List.mem_append.mpr (Or.inr (List.mem_cons_of_mem _ (ih _ hm3)))))
          next =>
            exact List.mem_cons_of_mem _ (ih _ hm)
      · rw [if_neg h0]
        rcases List.mem_cons.mp h with rfl | hm
        · exact List.mem_cons_self _ _
        · exact List.mem_cons_of_mem _ (ih _ hm)

theorem mem_ruleEGo {c : Char} (hc : isPySpace c = false) :
    ∀ (fuel : Nat) (s : List Char), c ∈ s → c ∈ ruleEGo fuel s := by
  intro fuel
  induction fuel with
  | zero => exact fun s h => h
  | succ f ih =>
    intro s h
    cases s with
    | nil => exact h
    | cons c0 cs =>
      simp only [ruleEGo]
      by_cases h0 : isPunct c0
      · rw [if_pos h0]
        by_cases hlast : (cs.takeWhile isPySpace).getLast? = some '\n'
        · rw [if_pos hlast]
          split
          next u t heq =>
            by_cases hu : isUpperAZ u
            · rw [if_pos hu]
              rcases List.mem_cons.mp h with rfl | hm
              · exact List.mem_cons_self _ _
              · have hd : c ∈ cs.dropWhile isPySpace := mem_dropWhile_of_mem hm hc
                rw [heq] at hd
                rcases List.mem_cons.mp hd with rfl | hm3
                · exact List.mem_cons_of_mem _ (List.mem_cons_of_mem _
                    (List.mem_cons_of_mem _ (List.mem_cons_self _ _)))
                · exact List.mem_cons_of_mem _ (List.mem_cons_of_mem _
                    (List.mem_cons_of_mem _ (List.mem_cons_of_mem _ (ih _ hm3))))
            · rw [if_neg hu]
              rcases List.mem_cons.mp h with rfl | hm
              · exact List.mem_cons_self _ _
              · exact List.mem_cons_of_mem _ (ih _ hm)
          next =>
            rcases List.mem_cons.mp h with rfl | hm
            · exact List.mem_cons_self _ _
            · exact List.mem_cons_of_mem _ (ih _ hm)
        · rw [if_neg hlast]
          rcases List.mem_cons.mp h with rfl | hm
          · exact List.mem_cons_self _ _
          · exact List.mem_cons_of_mem _ (ih _ hm)
      · rw [if_neg h0]
        rcases List.mem_cons.mp h with rfl | hm
        · exact List.mem_cons_self _ _
        · exact List.mem_cons_of_mem _ (ih _ hm)

theorem mem_ruleBGo {c : Char} (hc : isPySpace c = false) :
    ∀ (fuel : Nat) (s : List Char), c ∈ s → c ∈ ruleBGo fuel s := by
  intro fuel
  induction fuel with
  | zero => exact fun s h => h
  | succ f ih =>
    intro s h
    cases s with
    | nil => exact h
    | cons c0 cs =>
      simp only [ruleBGo]
      by_cases h0 : isUpperAZ c0
      · rw [if_pos h0]
        by_cases hre : (cs.takeWhile isClassB).isEmpty
        · rw [if_pos hre]
          rcases List.mem_cons.mp h with rfl | hm
          · exact List.mem_cons_self _ _
          · exact List.mem_cons_of_mem _ (ih _ hm)
        · rw [if_neg hre]
          split
          next x t heq =>
            by_cases hx : x = '\n'
            · rw [if_pos hx]
              rcases List.mem_cons.mp h with rfl | hm
              · exact List.mem_cons_self _ _
              · exact List.mem_cons_of_mem _ (ih _ hm)
            · rw [if_neg hx]
              rcases List.mem_cons.mp h with rfl | hm
              · exact List.mem_cons_self _ _
              · have hsplit : cs.takeWhile isClassB ++ cs.dropWhile isClassB = cs :=
                  List.takeWhile_append_dropWhile isClassB cs
                rw [← hsplit] at hm
                rcases List.mem_append.mp hm with hm1 | hm2
                · exact List.mem_cons_of_mem _ (List.mem_append.mpr (Or.inl hm1))
                · rw [heq] at hm2
                  rcases List.mem_cons.mp hm2 with rfl | hm3
                  · exact List.mem_cons_of_mem _ (List.mem_append.mpr
                      (Or.inr (List.mem_cons_self _ _)))
                  · rcases List.mem_cons.mp hm3 with rfl | hm4
                    · exact List.mem_cons_of_mem _ (List.mem_append.mpr
                        (Or.inr (List.mem_cons_of_mem _ (List.mem_cons_of_mem _
                          (List.mem_cons_self _ _)))))
                    · exact List.mem_cons_of_mem _ (List.mem_append.mpr
                        (Or.inr (List.mem_cons_of_mem _ (List.mem_cons_of_mem _
                          (List.mem_cons_of_mem _ (ih _ hm4))))))
          next =>
            rcases List.mem_cons.mp h with rfl | hm
            · exact List.mem_cons_self _ _
            · exact List.mem_cons_of_mem _ (ih _ hm)
      · rw [if_neg h0]
        rcases List.mem_cons.mp h with rfl | hm
        · exact List.mem_cons_self _ _
        · exact List.mem_cons_of_mem _ (ih _ hm)

theorem mem_ruleAGo {c : Char} (hc : isPySpace c = false) :
    ∀ (fuel : Nat) (s : List Char), c ∈ s → c ∈ ruleAGo fuel s := by
  have hcn : ¬c = '\n' := by
    intro hh
    rw [hh] at hc
    exact absurd hc (by decide)
  intro fuel
  induction fuel with
  | zero => exact fun s h => h
  | succ f ih =>
    intro s h
    cases s with
    | nil => exact h
    | cons c0 cs =>
      by_cases h0 : c0 = '\n'
      · have hm : c ∈ cs := by
          rcases List.mem_cons.mp h with rfl | hm
          · exact absurd h0 hcn
          · exact hm
        cases cs with
        | nil => exact absurd hm (List.not_mem_nil c)
        | cons a cs2 =>
          simp only [ruleAGo]
          rw [if_pos h0]
          by_cases ha : isUpperAZ a
          · rw [if_pos ha]
            rcases hr : lastColonNl (cs2.takeWhile isClassA) with _ | j
            · simp only [hr]
              exact List.mem_cons_of_mem _ (ih _ hm)
            · simp only [hr]
              by_cases hj : 1 ≤ j
              · rw [if_pos hj]
                have hsp := lastColonNl_spec (cs2.takeWhile isClassA) j hr
                have hle := lastColonNl_le (cs2.takeWhile isClassA) j hr
                have hsplit : cs2.takeWhile isClassA ++ cs2.dropWhile isClassA = cs2 :=
                  List.takeWhile_append_dropWhile isClassA cs2
                have hdrop : cs2.drop (j + 2) =
                    (cs2.takeWhile isClassA).drop (j + 2) ++ cs2.dropWhile isClassA := by
                  conv_lhs => rw [← hsplit]
                  exact List.drop_append_of_le_length hle
                rcases List.mem_cons.mp hm with rfl | hm2
                · exact List.mem_cons_of_mem _ (List.mem_cons_of_mem _
                    (List.mem_cons_self _ _))
                · rw [← hsplit] at hm2
                  rcases List.mem_append.mp hm2 with hmT | hmD
                  · rw [hsp] at hmT
                    rcases List.mem_append.mp hmT with hm3 | hm4
                    · exact List.mem_cons_of_mem _ (List.mem_cons_of_mem _
                        (List.mem_cons_of_mem _ (List.mem_append.mpr (Or.inl hm3))))
                    · rcases List.mem_cons.mp hm4 with rfl | hm5
                      · exact List.mem_cons_of_mem _ (List.mem_cons_of_mem _
                          (List.mem_cons_of_mem _ (List.mem_append.mpr
                            (Or.inr (List.mem_cons_self _ _)))))
                      · rcases List.mem_cons.mp hm5 with rfl | hm6
                        · exact absurd rfl hcn
                        · have hrec : c ∈ cs2.drop (j + 2) := by
                            rw [hdrop]
                            exact List.mem_append.mpr (Or.inl hm6)
                          exact List.mem_cons_of_mem _ (List.mem_cons_of_mem _
                            (List.mem_cons_of_mem _ (List.mem_append.mpr
                              (Or.inr (List.mem_cons_of_mem _ (List.mem_cons_of_mem _
                                (ih _ hrec)))))))
                  · have hrec : c ∈ cs2.drop (j + 2) := by
                      rw [hdrop]
                      exact List.mem_append.mpr (Or.inr hmD)
                    exact List.mem_cons_of_mem _ (List.mem_cons_of_mem _
                      (List.mem_cons_of_mem _ (List.mem_append.mpr
                        (Or.inr (List.mem_cons_of_mem _ (List.mem_cons_of_mem _
                          (ih _ hrec)))))))
              · rw [if_neg hj]
                exact List.mem_cons_of_mem _ (ih _ hm)
          · rw [if_neg ha]
            exact List.mem_cons_of_mem _ (ih _ hm)
      · simp only [ruleAGo]
        rw [if_neg h0]
        rcases List.mem_cons.mp h with rfl | hm
        · exact List.mem_cons_self _ _
        · exact List.mem_cons_of_mem _ (ih _ hm)

/-! Inclusion lemmas (outputs only contain spaces and input characters) and
identity lemmas (steps that cannot fire leave the text unchanged). -/

theorem mem_of_takeWhile {p : Char → Bool} {c : Char} :
    ∀ {l : List Char}, c ∈ l.takeWhile p → c ∈ l := by
  intro l
  induction l with
  | nil => intro h; exact h
  | cons a t ih =>
    intro h
    rw [List.takeWhile_cons] at h
    by_cases ha : p a
    · rw [if_pos ha] at h
      rcases List.mem_cons.mp h with rfl | hm
      · exact List.mem_cons_self _ _
      · exact List.mem_cons_of_mem _ (ih hm)
    · rw [if_neg ha] at h
      exact absurd h (List.not_mem_nil c)

theorem mem_of_dropWhile {p : Char → Bool} {c : Char} :
    ∀ {l : List Char}, c ∈ l.dropWhile p → c ∈ l := by
  intro l
  induction l with
  | nil => intro h; exact h
  | cons a t ih =>
    intro h
    rw [List.dropWhile_cons] at h
    by_cases ha : p a
    · rw [if_pos ha] at h
      exact List.mem_cons_of_mem _ (ih h)
    · rw [if_neg ha] at h
      exact h

theorem mem_of_getLast?_eq {c : Char} {l : List Char}
    (h : l.getLast? = some c) : c ∈ l := by
  obtain ⟨ys, rfl⟩ := List.getLast?_eq_some_iff.mp h
  exact List.mem_append.mpr (Or.inr (List.mem_cons_self _ _))

theorem mem_pyStrip_subset {c : Char} {s : List Char} (h : c ∈ pyStrip s) :
    c ∈ s := by
  unfold pyStrip at h
  rw [List.mem_reverse] at h
  have h1 := mem_of_dropWhile h
  rw [List.mem_reverse] at h1
  exact mem_of_dropWhile h1

theorem mem_collapseRunsAux_subset {p : Char → Bool} {c : Char} :
    ∀ {l : List Char} {flag : Bool},
      c ∈ collapseRunsAux p flag l → c = ' ' ∨ (c ∈ l ∧ p c = false) := by
  intro l
  induction l with
  | nil => intro flag h; exact absurd h (List.not_mem_nil c)
  | cons a t ih =>
    intro flag h
    unfold collapseRunsAux at h
    by_cases ha : p a
    · rw [if_pos ha] at h
      cases flag with
      | true =>
        rcases ih h with rfl | ⟨hm, hp⟩
        · exact Or.inl rfl
        · exact Or.inr ⟨List.mem_cons_of_mem _ hm, hp⟩
      | false =>
        rcases List.mem_cons.mp h with rfl | hm
        · exact Or.inl rfl
        · rcases ih hm with rfl | ⟨hm2, hp⟩
          · exact Or.inl rfl
          · exact Or.inr ⟨List.mem_cons_of_mem _ hm2, hp⟩
    · rw [if_neg ha] at h
      rcases List.mem_cons.mp h with rfl | hm
      · exact Or.inr ⟨List.mem_cons_self _ _, Bool.not_eq_true _ ▸ eq_false_of_ne_true ha⟩
      · rcases ih hm with rfl | ⟨hm2, hp⟩
        · exact Or.inl rfl
        · exact Or.inr ⟨List.mem_cons_of_mem _ hm2, hp⟩

/-- The whitespace collapse never outputs a newline. -/
theorem noNewline_collapseWS (s : List Char) : noNewline (collapseWS s) := by
  intro h
  rcases mem_collapseRunsAux_subset h with heq | ⟨_, hp⟩
  · exact absurd heq (by decide)
  · exact absurd hp (by decide)

/-- Newline-free inputs of rules `A`, `C`, `D`, `N`, `E` are fixed points. -/
theorem ruleAGo_id_of_noNewline (fuel : Nat) :
    ∀ (s : List Char), noNewline s → ruleAGo fuel s = s := by
  induction fuel with
  | zero => intro s _; rfl
  | succ f ih =>
    intro s h
    cases s with
    | nil => rfl
    | cons c cs =>
      have hc : ¬c = '\n' := fun hh => h (hh ▸ List.mem_cons_self c cs)
      simp only [ruleAGo]
      rw [if_neg hc, ih cs (fun hm => h (List.mem_cons_of_mem c hm))]

theorem ruleCGo_id_of_noNewline (fuel : Nat) :
    ∀ (s : List Char), noNewline s → ruleCGo fuel s = s := by
  induction fuel with
  | zero => intro s _; rfl
  | succ f ih =>
    intro s h
    cases s with
    | nil => rfl
    | cons c cs =>
      have hc : ¬c = '\n' := fun hh => h (hh ▸ List.mem_cons_self c cs)
      simp only [ruleCGo]
      rw [if_neg hc, ih cs (fun hm => h (List.mem_cons_of_mem c hm))]

theorem ruleDGo_id_of_noNewline (fuel : Nat) :
    ∀ (s : List Char), noNewline s → ruleDGo fuel s = s := by
  induction fuel with
  | zero => intro s _; rfl
  | succ f ih =>
    intro s h
    cases s with
    | nil => rfl
    | cons c cs =>
      have hc : ¬c = '\n' := fun hh => h (hh ▸ List.mem_cons_self c cs)
      simp only [ruleDGo]
      rw [if_neg hc, ih cs (fun hm => h (List.mem_cons_of_mem c hm))]

theorem ruleEGo_id_of_noNewline (fuel : Nat) :
    ∀ (s : List Char), noNewline s → ruleEGo fuel s = s := by
  induction fuel with
  | zero => intro s _; rfl
  | succ f ih =>
    intro s h
    cases s with
    | nil => rfl
    | cons c cs =>
      have hcs : noNewline cs := fun hm => h (List.mem_cons_of_mem c hm)
      simp only [ruleEGo]
      by_cases hp : isPunct c
      · rw [if_pos hp]
        have hlast : ¬(cs.takeWhile isPySpace).getLast? = some '\n' := by
          intro hl
          exact hcs (mem_of_takeWhile (mem_of_getLast?_eq hl))
        rw [if_neg hlast, ih cs hcs]
      · rw [if_neg hp, ih cs hcs]

/-- A text without a `ruleB` match anywhere is a fixed point of `ruleB`. -/
theorem ruleBGo_id_of_noTrigger (fuel : Nat) :
    ∀ (s : List Char), hasRuleBTrigger s = false → ruleBGo fuel s = s := by
  induction fuel with
  | zero => intro s _; rfl
  | succ f ih =>
    intro s h
    cases s with
    | nil => rfl
    | cons c cs =>
      rw [hasRuleBTrigger, Bool.or_eq_false_iff] at h
      obtain ⟨hAt, hRest⟩ := h
      simp only [ruleBGo]
      by_cases h0 : isUpperAZ c
      · rw [if_pos h0]
        by_cases hre : (cs.takeWhile isClassB).isEmpty
        · rw [if_pos hre, ih cs hRest]
        · rw [if_neg hre]
          split
          next x t heq =>
            by_cases hx : x = '\n'
            · rw [if_pos hx, ih cs hRest]
            · exfalso
              rw [ruleBTriggerAt, heq] at hAt
              simp [h0, hre, hx] at hAt
          next =>
            rw [ih cs hRest]
      · rw [if_neg h0, ih cs hRest]

/-- Newline-free input is a fixed point of the wrapped rules. -/
theorem ruleA_id_of_noNewline (s : List Char) (h : noNewline s) : ruleA s = s :=
  ruleAGo_id_of_noNewline s.length s h

theorem ruleB_id_of_noTrigger (s : List Char) (h : hasRuleBTrigger s = false) :
    ruleB s = s :=
  ruleBGo_id_of_noTrigger s.length s h

theorem ruleC_id_of_noNewline (s : List Char) (h : noNewline s) : ruleC s = s :=
  ruleCGo_id_of_noNewline s.length s h

theorem ruleD_id_of_noNewline (s : List Char) (h : noNewline s) : ruleD s = s :=
  ruleDGo_id_of_noNewline s.length s h

theorem ruleE_id_of_noNewline (s : List Char) (h : noNewline s) : ruleE s = s :=
  ruleEGo_id_of_noNewline s.length s h

theorem ruleN_id_of_noNewline (s : List Char) (h : noNewline s) : ruleN s = s :=
  ruleNGo_id_of_noNewline s.length s h

/-- Definitional bridges, stated once so later proofs rewrite instead of
forcing the unifier to unfold the large composition. -/

theorem data_mk (l : List Char) : (⟨l⟩ : String).data = l := rfl

theorem mk_eq_empty_iff (l : List Char) : (⟨l⟩ : String) = "" ↔ l = [] := by
  constructor
  · intro h
    rw [show ("" : String) = ⟨[]⟩ from rfl] at h
    injection h
  · intro h
    rw [h]

theorem format_response_chars_eq (s : List Char) :
    format_response_chars s =
      pyStrip (collapseSpaces (ruleN (ruleE (ruleD (ruleC (ruleB (ruleA
        (preStructured s)))))))) := rfl

theorem format_response_some (s : String) (hs : ¬s = "") :
    format_response (some s) = ⟨format_response_chars s.data⟩ := by
  show (if s = "" then FALLBACK_ANSWER else ⟨format_response_chars s.data⟩) = _
  rw [if_neg hs]

/-! Fixed-point lemmas for already-clean text. -/

theorem mem_of_head?_eq {c : Char} {l : List Char} (h : l.head? = some c) :
    c ∈ l := by
  cases l with
  | nil => exact absurd h (by simp)
  | cons a t =>
    injection h with h
    rw [h]
    exact List.mem_cons_self _ _

theorem dropWhile_eq_self_of_head {p : Char → Bool} :
    ∀ {l : List Char}, (∀ a, l.head? = some a → p a = false) →
      l.dropWhile p = l := by
  intro l h
  cases l with
  | nil => rfl
  | cons a t =>
    have ha := h a rfl
    rw [List.dropWhile_cons, ha]
    simp

theorem pyStrip_id {s : List Char}
    (hh : ∀ a, s.head? = some a → isPySpace a = false)
    (hl : ∀ a, s.getLast? = some a → isPySpace a = false) :
    pyStrip s = s := by
  unfold pyStrip
  rw [dropWhile_eq_self_of_head hh]
  rw [dropWhile_eq_self_of_head (fun a ha => by
    rw [List.head?_reverse] at ha
    exact hl a ha)]
  exact List.reverse_reverse s

theorem stripStars_id {s : List Char} (h : noMarkers s) : stripStars s = s := by
  unfold stripStars
  exact List.filter_eq_self.mpr (fun c hc => by simp [(h c hc).1])

theorem stripMarks_id {s : List Char} (h : noMarkers s) : stripMarks s = s := by
  unfold stripMarks
  exact List.filter_eq_self.mpr (fun c hc => by simp [(h c hc).2])

theorem noDoubleSpace_tail {a : Char} {t : List Char}
    (h : noDoubleSpace (a :: t) = true) : noDoubleSpace t = true := by
  cases t with
  | nil => rfl
  | cons b t' =>
    rw [noDoubleSpace, Bool.and_eq_true] at h
    exact h.2

theorem noDoubleSpace_head {a b : Char} {t : List Char}
    (h : noDoubleSpace (a :: b :: t) = true) (ha : a = ' ') : ¬b = ' ' := by
  rw [noDoubleSpace, Bool.and_eq_true] at h
  intro hb
  have := h.1
  rw [ha, hb] at this
  simp at this

theorem collapseRunsAux_id {p : Char → Bool} :
    ∀ (s : List Char), (∀ c ∈ s, p c = true → c = ' ') →
      noDoubleSpace s = true →
      collapseRunsAux p false s = s ∧
        (s.head? ≠ some ' ' → collapseRunsAux p true s = s) := by
  intro s
  induction s with
  | nil => intro _ _; exact ⟨rfl, fun _ => rfl⟩
  | cons a t ih =>
    intro h1 h2
    have h1t : ∀ c ∈ t, p c = true → c = ' ' :=
      fun c hc => h1 c (List.mem_cons_of_mem a hc)
    have iht := ih h1t (noDoubleSpace_tail h2)
    by_cases hpa : p a
    · have ha : a = ' ' := h1 a (List.mem_cons_self a t) hpa
      have htid : collapseRunsAux p true t = t := by
        apply iht.2
        cases t with
        | nil => simp
        | cons b t' =>
          have hb := noDoubleSpace_head h2 ha
          simp [hb]
      refine ⟨?_, ?_⟩
      · show (if p a = true then
            (if false = true then collapseRunsAux p true t
             else ' ' :: collapseRunsAux p true t)
          else a :: collapseRunsAux p false t) = a :: t
        rw [if_pos hpa, if_neg (by simp), htid, ha]
      · intro hhead
        exfalso
        apply hhead
        rw [ha]
        rfl
    · refine ⟨?_, fun _ => ?_⟩
      · show (if p a = true then
            (if false = true then collapseRunsAux p true t
             else ' ' :: collapseRunsAux p true t)
          else a :: collapseRunsAux p false t) = a :: t
        rw [if_neg hpa, iht.1]
      · show (if p a = true then
            (if true = true then collapseRunsAux p true t
             else ' ' :: collapseRunsAux p true t)
          else a :: collapseRunsAux p false t) = a :: t
        rw [if_neg hpa, iht.1]

theorem collapseWS_id {s : List Char} (h : wsClean s) : collapseWS s = s :=
  (collapseRunsAux_id s h.1 h.2.1).1

theorem isPySpace_of_isSpaceTab {c : Char} (h : isSpaceTab c = true) :
    isPySpace c = true := by
  unfold isSpaceTab at h
  unfold isPySpace
  by_cases h1 : c = ' '
  · simp [h1]
  · simp [h1] at h
    simp [h, h1]

theorem collapseSpaces_id {s : List Char} (h : wsClean s) :
    collapseSpaces s = s :=
  (collapseRunsAux_id s
    (fun c hc hst => h.1 c hc (isPySpace_of_isSpaceTab hst)) h.2.1).1

theorem noNewline_of_wsClean {s : List Char} (h : wsClean s) : noNewline s := by
  intro hmem
  have := h.1 '\n' hmem (by decide)
  exact absurd this (by decide)

theorem head_not_space_of_wsClean {s : List Char} (h : wsClean s) :
    ∀ a, s.head? = some a → isPySpace a = false := by
  intro a ha
  cases hws : isPySpace a with
  | false => rfl
  | true =>
    have := h.1 a (mem_of_head?_eq ha) hws
    rw [this] at ha
    exact absurd ha h.2.2.1

theorem last_not_space_of_wsClean {s : List Char} (h : wsClean s) :
    ∀ a, s.getLast? = some a → isPySpace a = false := by
  intro a ha
  cases hws : isPySpace a with
  | false => rfl
  | true =>
    have := h.1 a (mem_of_getLast?_eq ha) hws
    rw [this] at ha
    exact absurd ha h.2.2.2

/-- Every `ruleB` match is in particular a heading substring. -/
theorem headingSub_of_trigger :
    ∀ (s : List Char), hasRuleBTrigger s = true → hasHeadingSub s = true := by
  intro s
  induction s with
  | nil => intro h; exact absurd h (by simp [hasRuleBTrigger])
  | cons c cs ih =>
    intro h
    rw [hasRuleBTrigger, Bool.or_eq_true] at h
    rw [hasHeadingSub, Bool.or_eq_true]
    rcases h with h | h
    · left
      rw [ruleBTriggerAt] at h
      rw [headingAt]
      simp only [Bool.and_eq_true] at h ⊢
      refine ⟨h.1, ?_⟩
      rcases h with ⟨-, hmatch⟩
      revert hmatch
      split
      next x t heq =>
        intro _
        rw [heq]
        rfl
      next heq2 =>
        intro hfalse
        exact absurd hfalse (by simp)
    · right
      exact ih h

end Chat

section Claims

open Chat

/-- C9: in the JSON `POST /chat` handler, a body whose `message` key is bound
to the empty string is rejected with HTTP 400 and error "No message
provided", exactly as when the key is missing or the body is falsy: the
validation tests falsiness of the value, not presence of the key. -/
theorem C9_empty_message_rejected (env : Env) (hist : List ConversationTurn) :
    chat_json env (some ⟨some "", hist⟩) =
        ([], ChatResponse.err 400 "No message provided") ∧
    chat_json env (some ⟨none, hist⟩) =
        ([], ChatResponse.err 400 "No message provided") ∧
    chat_json env none = ([], ChatResponse.err 400 "No message provided") := by
  exact ⟨rfl, rfl, rfl⟩

/-- C7: a malformed `conversation_history` form field does not fail the
upload request: the handler behaves exactly as if the field parsed to an
empty history. -/
theorem C7_malformed_history_falls_back (env : Env) (req : UploadRequest)
    (e : String) (h : req.historyParse = .error e) :
    handle_file_upload env req =
      handle_file_upload env { req with historyParse := .ok [] } := by
  simp only [handle_file_upload, historyOf, h]

/-- C7 witness: a concrete upload with malformed history JSON. -/
theorem C7_witness :
    handle_file_upload sampleEnv badJsonReq =
      handle_file_upload sampleEnv { badJsonReq with historyParse := .ok [] } :=
  C7_malformed_history_falls_back sampleEnv badJsonReq
    "Expecting value: line 1 column 1 (char 0)" rfl

/-- C5 counterexample: `"AB:1."` has no markdown markers and normalized
whitespace (it has no whitespace at all), yet formatting is not idempotent on
it: the first pass yields `"AB:\n\n1."` and the second `"AB:\n 1."`. -/
theorem C5_counterexample :
    noMarkers "AB:1.".data ∧ wsClean "AB:1.".data ∧
    format_response (some (format_response (some "AB:1."))) ≠
      format_response (some "AB:1.") := by
  decide

/-- C5 amended: the formatter is idempotent on clean text provided it also
contains no all-caps heading trigger (an `[A-Z]` character, a non-empty
`[A-Z\s]` run, a colon and a following non-newline character): on such text
with no markers and normalized whitespace, `format` is the identity (or the
fallback for `""`), hence idempotent. -/
theorem C5_idempotent_amended (x : String) (hm : noMarkers x.data)
    (hw : wsClean x.data) (ht : hasRuleBTrigger x.data = false) :
    format_response (some (format_response (some x))) =
      format_response (some x) := by
  by_cases hx : x = ""
  · subst hx
    decide
  · have hnn : noNewline x.data := noNewline_of_wsClean hw
    have hh := head_not_space_of_wsClean hw
    have hl := last_not_space_of_wsClean hw
    have hpre : preStructured x.data = x.data := by
      unfold preStructured
      rw [pyStrip_id hh hl, stripStars_id hm, stripMarks_id hm, collapseWS_id hw]
    have hid : format_response_chars x.data = x.data := by
      rw [format_response_chars_eq, hpre, ruleA_id_of_noNewline _ hnn,
          ruleB_id_of_noTrigger _ ht, ruleC_id_of_noNewline _ hnn,
          ruleD_id_of_noNewline _ hnn, ruleE_id_of_noNewline _ hnn,
          ruleN_id_of_noNewline _ hnn, collapseSpaces_id hw, pyStrip_id hh hl]
    have hfx : format_response (some x) = x := by
      rw [format_response_some x hx, hid]
    rw [hfx]
    exact hfx

/-- C5 amended witness: a clean sentence without a heading trigger. -/
theorem C5_witness :
    noMarkers "Hello there.".data ∧ wsClean "Hello there.".data ∧
    hasRuleBTrigger "Hello there.".data = false ∧
    format_response (some (format_response (some "Hello there."))) =
      format_response (some "Hello there.") :=
  ⟨by decide, by decide, by decide,
    C5_idempotent_amended "Hello there." (by decide) (by decide) (by decide)⟩

/-- C6: file-type dispatch in `handle_file_upload`: an `image/` mime type is
routed to image processing; otherwise a `text/` mime type or a filename with
one of the eight text extensions is routed to text-file processing; any other
combination yields a fixed message naming the unsupported mime type and the
model is not invoked. -/
theorem C6_file_type_dispatch (env : Env) (req : UploadRequest)
    (hf : ¬req.filename = "") (hs : env.saveOk = true) :
    (startsWithL req.mimetype "image/" = true →
      handle_file_upload env req =
        (Effect.saveFile ("static/uploads/" ++ (env.token ++ "_" ++ req.filename)) ::
          (process_image_file env req.mimetype req.message
            (build_conversation_context (historyOf req))).1,
         UploadResponse.ok
           (process_image_file env req.mimetype req.message
             (build_conversation_context (historyOf req))).2
           ("/static/uploads/" ++ (env.token ++ "_" ++ req.filename))
           req.filename req.mimetype)) ∧
    (startsWithL req.mimetype "image/" = false →
     (startsWithL req.mimetype "text/" ||
        TEXT_EXTENSIONS.any (fun e => endsWithL req.filename e)) = true →
      handle_file_upload env req =
        (Effect.saveFile ("static/uploads/" ++ (env.token ++ "_" ++ req.filename)) ::
          (process_text_file env req.filename req.message
            (build_conversation_context (historyOf req))).1,
         UploadResponse.ok
           (process_text_file env req.filename req.message
             (build_conversation_context (historyOf req))).2
           ("/static/uploads/" ++ (env.token ++ "_" ++ req.filename))
           req.filename req.mimetype)) ∧
    (startsWithL req.mimetype "image/" = false →
     (startsWithL req.mimetype "text/" ||
        TEXT_EXTENSIONS.any (fun e => endsWithL req.filename e)) = false →
      handle_file_upload env req =
        ([Effect.saveFile ("static/uploads/" ++ (env.token ++ "_" ++ req.filename))],
         UploadResponse.ok
           ("Sorry, I don't support files of type '" ++ req.mimetype ++
            "'. I can analyze images and text files.")
           ("/static/uploads/" ++ (env.token ++ "_" ++ req.filename))
           req.filename req.mimetype) ∧
      ∀ p, Effect.modelCall p ∉ (handle_file_upload env req).1) := by
  refine ⟨fun h1 => ?_, fun h1 h2 => ?_, fun h1 h2 => ⟨?_, ?_⟩⟩
  · exact upload_saved_image env req hf hs (dispatchKind_image _ _ h1)
  · exact upload_saved_text env req hf hs (dispatchKind_text _ _ h1 h2)
  · exact upload_saved_unsupported env req hf hs (dispatchKind_unsupported _ _ h1 h2)
  · intro p
    rw [upload_saved_unsupported env req hf hs (dispatchKind_unsupported _ _ h1 h2)]
    simp

/-- C6 witness: a `.csv` upload with mime type `application/octet-stream` is
routed to text-file processing (filename-extension fallback). -/
theorem C6_witness :
    handle_file_upload sampleEnv csvReq =
      (Effect.saveFile ("static/uploads/" ++ (sampleEnv.token ++ "_" ++ csvReq.filename)) ::
        (process_text_file sampleEnv csvReq.filename csvReq.message
          (build_conversation_context (historyOf csvReq))).1,
       UploadResponse.ok
         (process_text_file sampleEnv csvReq.filename csvReq.message
           (build_conversation_context (historyOf csvReq))).2
         ("/static/uploads/" ++ (sampleEnv.token ++ "_" ++ csvReq.filename))
         csvReq.filename csvReq.mimetype) :=
  (C6_file_type_dispatch sampleEnv csvReq (by decide) rfl).2.1 (by decide) (by decide)

/-- C10: an upload of unsupported type is nonetheless saved (the save effect
precedes dispatch and is the whole effect trace) and the handler returns an
HTTP-200 body carrying `file_url`, `file_name` and `file_type` for the saved
file alongside the unsupported-type message. -/
theorem C10_unsupported_still_saved (env : Env) (req : UploadRequest)
    (hf : ¬req.filename = "") (hs : env.saveOk = true)
    (h1 : startsWithL req.mimetype "image/" = false)
    (h2 : (startsWithL req.mimetype "text/" ||
        TEXT_EXTENSIONS.any (fun e => endsWithL req.filename e)) = false) :
    handle_file_upload env req =
      ([Effect.saveFile ("static/uploads/" ++ (env.token ++ "_" ++ req.filename))],
       UploadResponse.ok
         ("Sorry, I don't support files of type '" ++ req.mimetype ++
          "'. I can analyze images and text files.")
         ("/static/uploads/" ++ (env.token ++ "_" ++ req.filename))
         req.filename req.mimetype) :=
  upload_saved_unsupported env req hf hs (dispatchKind_unsupported _ _ h1 h2)

/-- C1 counterexample: the whitespace-only input `" "` is truthy, skips the
step-1 fallback, and every later step leaves nothing, so the formatter
returns the empty string. -/
theorem C1_counterexample : format_response (some " ") = "" := by
  decide

/-- C1 amended: empty or absent input yields the non-empty fallback, and any
input containing at least one character that is neither whitespace nor a
markdown marker yields a non-empty result; but (per the counterexample) a
non-empty input of only whitespace/marker characters yields the empty string,
so the result is not non-empty for every input. -/
theorem C1_formatter_nonempty_amended (x : Option String)
    (h : x = none ∨ x = some "" ∨
      ∃ c ∈ (x.getD "").data, isPySpace c = false ∧ ¬c = '*' ∧ isMark c = false) :
    format_response x ≠ "" := by
  rcases h with rfl | rfl | ⟨c, hmem, hws, hstar, hmark⟩
  · decide
  · decide
  · cases x with
    | none => decide
    | some s =>
      by_cases hs : s = ""
      · subst hs
        decide
      · rw [format_response_some s hs]
        intro hcontra
        rw [mk_eq_empty_iff, format_response_chars_eq] at hcontra
        have hst : isSpaceTab c = false := by
          unfold isPySpace at hws
          unfold isSpaceTab
          simp only [Bool.or_eq_false_iff] at hws ⊢
          exact ⟨hws.1.1.1.1.1, hws.1.1.1.1.2⟩
        have hmem' : c ∈ s.data := hmem
        have h1 := mem_pyStrip hmem' hws
        have h2 := mem_stripStars h1 hstar
        have h3 := mem_stripMarks h2 hmark
        have h4 : c ∈ preStructured s.data := mem_collapseRuns h3 hws
        have h5 : c ∈ ruleA (preStructured s.data) := mem_ruleAGo hws _ _ h4
        have h6 : c ∈ ruleB (ruleA (preStructured s.data)) :=
          mem_ruleBGo hws _ _ h5
        have h7 : c ∈ ruleC (ruleB (ruleA (preStructured s.data))) :=
          mem_ruleCGo hws _ _ h6
        have h8 : c ∈ ruleD (ruleC (ruleB (ruleA (preStructured s.data)))) :=
          mem_ruleDGo hws _ _ h7
        have h9 : c ∈ ruleE (ruleD (ruleC (ruleB (ruleA (preStructured s.data))))) :=
          mem_ruleEGo hws _ _ h8
        have h10 : c ∈ ruleN (ruleE (ruleD (ruleC (ruleB (ruleA
            (preStructured s.data)))))) :=
          mem_ruleNGo hws _ _ h9
        have h11 : c ∈ collapseSpaces (ruleN (ruleE (ruleD (ruleC (ruleB (ruleA
            (preStructured s.data))))))) :=
          mem_collapseRuns h10 hst
        have h12 : c ∈ pyStrip (collapseSpaces (ruleN (ruleE (ruleD (ruleC (ruleB
            (ruleA (preStructured s.data)))))))) :=
          mem_pyStrip h11 hws
        rw [hcontra] at h12
        exact List.not_mem_nil c h12

/-- C1 amended witness: an input with a surviving letter. -/
theorem C1_witness : format_response (some "a b") ≠ "" :=
  C1_formatter_nonempty_amended (some "a b") (by decide)

/-- C8 counterexample: `"A*B:x"` contains no substring matching
`[A-Z][A-Z\s]+` followed by `:`, yet its formatted output contains a newline,
because removing the `*` creates the heading `"AB:"`. -/
theorem C8_counterexample :
    hasHeadingSub "A*B:x".data = false ∧
    '\n' ∈ (format_response (some "A*B:x")).data := by
  decide

/-- C8 amended: the hypothesis must be read on the intermediate text after
marker-stripping and whitespace collapse (steps 2–5): if that text contains
no substring matching `[A-Z][A-Z\s]+` followed by `:`, the output of
`format_response` contains no newline. -/
theorem C8_no_heading_no_newline (x : String)
    (h : hasHeadingSub (preStructured x.data) = false) :
    '\n' ∉ (format_response (some x)).data := by
  by_cases hx : x = ""
  · subst hx
    decide
  · have htr : hasRuleBTrigger (preStructured x.data) = false := by
      cases htrb : hasRuleBTrigger (preStructured x.data) with
      | false => rfl
      | true =>
        rw [headingSub_of_trigger _ htrb] at h
        exact absurd h (by simp)
    have hnn : noNewline (preStructured x.data) := noNewline_collapseWS _
    rw [format_response_some x hx, data_mk, format_response_chars_eq]
    rw [ruleA_id_of_noNewline _ hnn, ruleB_id_of_noTrigger _ htr,
        ruleC_id_of_noNewline _ hnn, ruleD_id_of_noNewline _ hnn,
        ruleE_id_of_noNewline _ hnn, ruleN_id_of_noNewline _ hnn]
    intro hmem
    have h1 := mem_pyStrip_subset hmem
    rcases mem_collapseRunsAux_subset h1 with heq | ⟨hm, _⟩
    · exact absurd heq (by decide)
    · exact hnn hm

/-- C8 amended witness: a plain sentence formats without newlines. -/
theorem C8_witness :
    hasHeadingSub (preStructured "hello.".data) = false ∧
    '\n' ∉ (format_response (some "hello.")).data :=
  ⟨by decide, C8_no_heading_no_newline "hello." (by decide)⟩

/-- C2 counterexample: at the collapse stage, a run of four newlines is
rewritten to three newlines — not to the two newlines the claim states. -/
theorem C2_counterexample :
    ruleN "\n\n\n\n".data = "\n\n\n".data ∧ ruleN "\n\n\n\n".data ≠ "\n\n".data := by
  decide

/-- C2 amended: in the formatter's rule chain, every run of 4 or more
consecutive newlines present at the collapse stage is collapsed down to
exactly 3 newlines (two blank lines), not 2. -/
theorem C2_amended (a b : List Char) (k : Nat) (hk : 4 ≤ k)
    (ha : '\n' ∉ a) (hb : '\n' ∉ b) :
    ruleN (a ++ (List.replicate k '\n' ++ b)) =
      a ++ (List.replicate 3 '\n' ++ b) := by
  exact ruleNGo_collapse k hk b hb a _ le_rfl ha

/-- C2 amended witness: a run of four newlines between two letters. -/
theorem C2_witness :
    4 ≤ 4 ∧ '\n' ∉ "x".data ∧ '\n' ∉ "y".data ∧
    ruleN ("x".data ++ (List.replicate 4 '\n' ++ "y".data)) =
      "x".data ++ (List.replicate 3 '\n' ++ "y".data) :=
  ⟨le_rfl, by decide, by decide,
    C2_amended "x".data "y".data 4 le_rfl (by decide) (by decide)⟩

/-- C3 counterexample: on a one-turn history the builder's output carries a
trailing `"\n\n"`, not the single trailing `"\n"` the claim's
header-plus-join reading produces. -/
theorem C3_counterexample :
    build_conversation_context [sampleTurn] ≠
        build_conversation_context_claim [sampleTurn] ∧
    build_conversation_context [sampleTurn] =
        "\n\nCONVERSATION CONTEXT:\nUser: hi\n\n" ∧
    build_conversation_context_claim [sampleTurn] =
        "\n\nCONVERSATION CONTEXT:\nUser: hi\n" := by
  decide

/-- C3 amended: for every non-empty history the builder returns the fixed
header, the last (up to) 10 turns rendered `"<Role>: <content>"` and joined
with newlines, and a trailing `"\n\n"` (each turn is followed by its own
newline and one extra newline is appended), i.e. the claim's string plus one
more newline. -/
theorem C3_amended (h : List ConversationTurn) (hne : h ≠ []) :
    build_conversation_context h = build_conversation_context_claim h ++ "\n" := by
  have hlt : lastTen h ≠ [] := by
    unfold lastTen
    rw [Ne, List.drop_eq_nil_iff]
    have : 0 < h.length := List.length_pos.mpr hne
    omega
  unfold build_conversation_context build_conversation_context_claim
  rw [if_neg hne, if_neg hne]
  rw [renderTurns_eq_joinNl (lastTen h) hlt]
  simp only [String.append_assoc]

/-- C3 amended witness: the one-turn history. -/
theorem C3_witness :
    ([sampleTurn] : List ConversationTurn) ≠ [] ∧
    build_conversation_context [sampleTurn] =
      build_conversation_context_claim [sampleTurn] ++ "\n" :=
  ⟨by decide, C3_amended [sampleTurn] (by decide)⟩

/-- C4: the context built from any history depends only on the last 10
turns, kept in original order: prepending arbitrary turns before a 10-turn
suffix leaves the output unchanged. -/
theorem C4_context_window (pre suf : List ConversationTurn)
    (h : suf.length = 10) :
    build_conversation_context (pre ++ suf) = build_conversation_context suf := by
  have hne : pre ++ suf ≠ [] := by
    intro hh
    have := congrArg List.length hh
    simp [h] at this
  have hsne : suf ≠ [] := by
    intro hh
    rw [hh] at h
    simp at h
  have hlast : lastTen (pre ++ suf) = suf := by
    unfold lastTen
    rw [List.length_append, h]
    have heq : pre.length + 10 - 10 = pre.length := by omega
    rw [heq]
    exact List.drop_left pre suf
  have hlast2 : lastTen suf = suf := by
    unfold lastTen
    rw [h]
    simp
  unfold build_conversation_context
  rw [if_neg hne, if_neg hsne, hlast, hlast2]

/-- C4 witness: eleven turns; the first is invisible in the output. -/
theorem C4_witness :
    (List.replicate 10 sampleTurn).length = 10 ∧
    build_conversation_context
        ([⟨some "assistant", some "old"⟩] ++ List.replicate 10 sampleTurn) =
      build_conversation_context (List.replicate 10 sampleTurn) :=
  ⟨by decide,
    C4_context_window [⟨some "assistant", some "old"⟩]
      (List.replicate 10 sampleTurn) (by decide)⟩

/-- C10 witness: a concrete `application/pdf` upload. -/
theorem C10_witness :
    handle_file_upload sampleEnv pdfReq =
      ([Effect.saveFile "static/uploads/t0_doc.pdf"],
       UploadResponse.ok
         "Sorry, I don't support files of type 'application/pdf'. I can analyze images and text files."
         "/static/uploads/t0_doc.pdf" "doc.pdf" "application/pdf") := by
  have h := C10_unsupported_still_saved sampleEnv pdfReq (by decide) rfl
    (by decide) (by decide)
  rw [h]
  decide

end Claims
